import Mathlib

/-!
Verification of the reminder/notification scheduler of `telegram_bot.py`.

The Python source is shallowly embedded: `datetime` values become the
`PyDateTime` structure (microsecond precision, days counted as an integer),
mutable module state becomes explicit `BotState` passing, and handlers become
pure functions returning the new state together with the events they emit
(armed timer jobs, outgoing notifications, log lines).
-/

namespace TelegramCat

/-- Model of a Python `datetime` (UTC, as used throughout the bot): a date,
counted in days, together with the time-of-day fields.  Comparisons and
`timedelta` arithmetic are done through `toMicro`. -/
structure PyDateTime where
  day : ℤ
  hour : ℕ
  minute : ℕ
  second : ℕ
  microsecond : ℕ
  deriving DecidableEq, Repr

/-- Total microseconds since the epoch of day 0; this realises `datetime`
ordering and subtraction for in-range field values. -/
def PyDateTime.toMicro (d : PyDateTime) : ℤ :=
  d.day * 86400000000 + (d.hour : ℤ) * 3600000000 + (d.minute : ℤ) * 60000000
    + (d.second : ℤ) * 1000000 + (d.microsecond : ℤ)

/-- Field ranges enforced by Python's `datetime` constructor. -/
def PyDateTime.Valid (d : PyDateTime) : Prop :=
  d.hour < 24 ∧ d.minute < 60 ∧ d.second < 60 ∧ d.microsecond < 1000000

instance (d : PyDateTime) : Decidable d.Valid := by
  unfold PyDateTime.Valid; infer_instance

/-- `now.replace(hour=hh, minute=mm, second=0, microsecond=0)` from
`remind_command`: keeps the date, replaces the time of day. -/
def replaceHM (now : PyDateTime) (hh mm : ℕ) : PyDateTime :=
  { now with hour := hh, minute := mm, second := 0, microsecond := 0 }

/-- `target += timedelta(days=k)`. -/
def addDays (d : PyDateTime) (k : ℤ) : PyDateTime :=
  { d with day := d.day + k }

/-- The scheduling-time resolution of `remind_command` (lines 206-208):
`target = now.replace(hour=hh, minute=mm, second=0, microsecond=0)`, and
`if target <= now: target += timedelta(days=1)`. -/
def resolveTarget (now : PyDateTime) (hh mm : ℕ) : PyDateTime :=
  if (replaceHM now hh mm).toMicro ≤ now.toMicro then addDays (replaceHM now hh mm) 1
  else replaceHM now hh mm

/-- `int(target.timestamp())`, in seconds.  The targets produced by
`remind_command` have zero seconds and microseconds, so truncating and
flooring division agree and the value is exact. -/
def pyTimestampSec (d : PyDateTime) : ℤ := d.toMicro / 1000000

/-! ## Threshold evaluator (`time_since_hours`, lines 112-117) -/

/-- `time_since_hours(dt_str)`: `float('inf')` when the timestamp is absent
(`parse_iso` returns `None`), otherwise `(utcnow() - dt).total_seconds() /
3600.0`.  `float('inf')` is modelled by `⊤` of `WithTop ℚ`; the clock
`utcnow()` is passed explicitly as `now`. -/
def time_since_hours (last : Option PyDateTime) (now : PyDateTime) : WithTop ℚ :=
  match last with
  | none => ⊤
  | some dt => (((((now.toMicro - dt.toMicro : ℤ) : ℚ) / 1000000) / 3600 : ℚ) : WithTop ℚ)

/-- The due test used by the periodic check (line 332):
`time_since_hours(last) >= threshold`. -/
def isDue (last : Option PyDateTime) (threshold : ℚ) (now : PyDateTime) : Bool :=
  decide ((threshold : WithTop ℚ) ≤ time_since_hours last now)

/-- `FEED_THRESHOLD_HOURS = 6` (line 56). -/
def FEED_THRESHOLD_HOURS : ℚ := 6

/-- `DRINK_THRESHOLD_HOURS = 4` (line 57). -/
def DRINK_THRESHOLD_HOURS : ℚ := 4

/-- `SLEEP_THRESHOLD_HOURS = 18` (line 58). -/
def SLEEP_THRESHOLD_HOURS : ℚ := 18

/-! ## Persisted state (`state.json` document) -/

/-- One entry of `state['reminders']` (lines 220-225): job id, scheduled run
time, destination chat and text content. -/
structure ReminderRecord where
  job_id : List Char
  run_at : PyDateTime
  chat_id : ℤ
  content : List Char
  deriving DecidableEq, Repr

/-- The persisted document (lines 79-85): the three last-action timestamps
(absent until first occurrence), the `users` mapping, and the ordered
`reminders` list. -/
structure BotState where
  last_feed : Option PyDateTime
  last_drink : Option PyDateTime
  last_sleep : Option PyDateTime
  users : List (ℤ × List Char)
  reminders : List ReminderRecord
  deriving DecidableEq, Repr

/-- The default document created by `load_state` when no file exists
(lines 79-85). -/
def freshState : BotState :=
  { last_feed := none, last_drink := none, last_sleep := none
    users := [], reminders := [] }

/-! ## Care-action commands (lines 156-171) -/

/-- `feed_command`: `state['last_feed'] = iso_now(); save_state(state)`.
The first component is the new in-memory state, the second the document
handed to `save_state`. -/
def feed_command (now : PyDateTime) (st : BotState) : BotState × BotState :=
  let st' := { st with last_feed := some now }
  (st', st')

/-- `drink_command`: `state['last_drink'] = iso_now(); save_state(state)`. -/
def drink_command (now : PyDateTime) (st : BotState) : BotState × BotState :=
  let st' := { st with last_drink := some now }
  (st', st')

/-- `sleep_command`: `state['last_sleep'] = iso_now(); save_state(state)`. -/
def sleep_command (now : PyDateTime) (st : BotState) : BotState × BotState :=
  let st' := { st with last_sleep := some now }
  (st', st')

/-- The tracked care-action kinds. -/
inductive ActionKind where
  | feed
  | drink
  | sleep
  deriving DecidableEq, Repr

/-- Dispatch of an inbound action event to the matching command handler. -/
def record_action (k : ActionKind) (now : PyDateTime) (st : BotState) :
    BotState × BotState :=
  match k with
  | .feed => feed_command now st
  | .drink => drink_command now st
  | .sleep => sleep_command now st

/-! ## Timer-fire handler (`send_reminder_job`, lines 233-240) -/

/-- `send_reminder_job(chat_id, content)` sends the single message
`f"🔔 提醒：{content}"` to `chat_id`; it performs no state access. -/
def send_reminder_job (chat_id : ℤ) (content : List Char) : List (ℤ × List Char) :=
  [(chat_id, "🔔 提醒：".data ++ content)]

/-- A timer firing: the scheduler invokes `send_reminder_job` with the
arguments stored at scheduling time.  The persisted document is neither read
nor written by the handler, so it passes through unchanged; the second
component lists the notifications emitted. -/
def fireReminder (st : BotState) (chat_id : ℤ) (content : List Char) :
    BotState × List (ℤ × List Char) :=
  (st, send_reminder_job chat_id content)

/-! ## Periodic check (`schedule_periodic_checks`, lines 327-341) -/

/-- What one run of `check_and_notify` emits: log lines written through
`logger.info`, and notification messages sent to a chat. -/
structure CheckOutput where
  logs : List (List Char)
  notifications : List (ℤ × List Char)
  deriving DecidableEq, Repr

/-- `check_and_notify` (lines 329-338): tests
`time_since_hours(state.get('last_feed')) >= FEED_THRESHOLD_HOURS` and, when
due, logs `'需要提醒餵食'`.  No message is sent (the function has no chat id
in scope) and the drink/sleep timestamps are not consulted. -/
def check_and_notify (st : BotState) (now : PyDateTime) : CheckOutput :=
  { logs := if isDue st.last_feed FEED_THRESHOLD_HOURS now then ["需要提醒餵食".data] else []
    notifications := [] }

/-- The interval of the periodic job registered by
`scheduler.add_job(check_and_notify, 'interval', minutes=30, ...)`
(line 341). -/
def periodic_check_interval_minutes : ℕ := 30

/-! ## Decimal rendering (Python `str` of an integer, used in f-strings and
by `json.dump`) -/

/-- The decimal digit characters. -/
def digitChar (n : ℕ) : Char :=
  match n with
  | 0 => '0' | 1 => '1' | 2 => '2' | 3 => '3' | 4 => '4'
  | 5 => '5' | 6 => '6' | 7 => '7' | 8 => '8' | _ => '9'

/-- Numeric value of a decimal digit character. -/
def digitVal (c : Char) : ℕ := c.toNat - 48

/-- Fuel-indexed decimal rendering; `fuel ≥ n` suffices. -/
def natReprAux : ℕ → ℕ → List Char
  | 0, n => [digitChar (n % 10)]
  | fuel + 1, n =>
    if n < 10 then [digitChar n]
    else natReprAux fuel (n / 10) ++ [digitChar (n % 10)]

/-- Python's decimal rendering of a natural number (`str(n)`): most
significant digit first, no leading zeros except for `0` itself. -/
def natRepr (n : ℕ) : List Char := natReprAux n n

/-- Python's decimal rendering of an integer (`str(z)`). -/
def intRepr (z : ℤ) : List Char :=
  if z < 0 then '-' :: natRepr z.natAbs else natRepr z.natAbs

/-- Value of a digit string, most significant digit first. -/
def digitsVal (l : List Char) : ℕ := l.foldl (fun acc c => 10 * acc + digitVal c) 0

/-! ## Reminder scheduling (`remind_command`, lines 195-230) -/

/-- The job id built at line 216:
`f"remind_{len(state.get('reminders', [])) + 1}_{int(target.timestamp())}"`. -/
def jobId (seq : ℕ) (ts : ℤ) : List Char :=
  "remind_".data ++ natRepr seq ++ '_' :: intRepr ts

/-- Python's `str.split(':')`: splits at every colon, keeping empty pieces
(so `""` gives `[""]` and `":"` gives `["", ""]`). -/
def splitColon : List Char → List (List Char)
  | [] => [[]]
  | c :: r =>
    if c = ':' then [] :: splitColon r
    else
      match splitColon r with
      | [] => [[c]]
      | h :: t => (c :: h) :: t

/-- Whitespace stripped by Python's `int(str)` conversion. -/
def isPyIntSpace (c : Char) : Bool :=
  c = ' ' || c = '\t' || c = '\n' || c = '\r' || c = '\x0b' || c = '\x0c'

/-- Digit run of `int(str)` after the first digit: further digits, each
optionally preceded by a single underscore (`int("1_0") = 10`, while
`"1__0"`, `"1_"` are rejected). -/
def pyDigitsAux : List Char → ℕ → Option ℕ
  | [], acc => some acc
  | '_' :: c :: r, acc =>
    if c.isDigit then pyDigitsAux r (10 * acc + digitVal c) else none
  | ['_'], _ => none
  | c :: r, acc =>
    if c.isDigit then pyDigitsAux r (10 * acc + digitVal c) else none

/-- Nonempty digit run (with optional grouping underscores) of `int(str)`. -/
def pyDigits : List Char → Option ℕ
  | [] => none
  | c :: r => if c.isDigit then pyDigitsAux r (digitVal c) else none

/-- Python's `int(str)`: optional surrounding whitespace, optional sign,
then a digit run. -/
def parsePyInt (l : List Char) : Option ℤ :=
  let t := (l.dropWhile isPyIntSpace).reverse.dropWhile isPyIntSpace |>.reverse
  match t with
  | '+' :: r => (pyDigits r).map (fun n => (n : ℤ))
  | '-' :: r => (pyDigits r).map (fun n => -(n : ℤ))
  | r => (pyDigits r).map (fun n => (n : ℤ))

/-- `hh, mm = map(int, time_part.split(':'))`: succeeds only when the split
yields exactly two pieces and both convert. -/
def parse_time_part (t : List Char) : Option (ℤ × ℤ) :=
  match splitColon t with
  | [a, b] =>
    match parsePyInt a, parsePyInt b with
    | some hh, some mm => some (hh, mm)
    | _, _ => none
  | _ => none

/-- A one-shot timer armed via `scheduler.add_job(send_reminder_job,
trigger=DateTrigger(run_date=target), args=(chat_id, content), id=job_id)`
(line 217). -/
structure TimerJob where
  job_id : List Char
  run_date : PyDateTime
  chat_id : ℤ
  content : List Char
  deriving DecidableEq, Repr

/-- The user-visible outcome of `/remind`: the usage reply (fewer than two
arguments), the time-format error reply (the `except` branch), or the
scheduled confirmation. -/
inductive RemindOutcome where
  | usage
  | timeFormatError
  | scheduled (target : PyDateTime)
  deriving DecidableEq, Repr

/-- `' '.join(args[1:])`. -/
def joinWithSpace (parts : List (List Char)) : List Char :=
  List.intercalate [' '] parts

/-- `remind_command` (lines 195-230): parse `HH:MM`, resolve the target
time, arm a one-shot timer, append the record to `state['reminders']` and
persist.  The `except` branch catches both the unpack/`int` failures and the
`ValueError` that `now.replace` raises on an out-of-range hour or minute.
Returns the persisted state, the list of timers armed, and the reply. -/
def remind_command (args : List (List Char)) (now : PyDateTime) (chat_id : ℤ)
    (st : BotState) : BotState × List TimerJob × RemindOutcome :=
  match args with
  | timePart :: a :: restArgs =>
    match parse_time_part timePart with
    | none => (st, [], RemindOutcome.timeFormatError)
    | some (hh, mm) =>
      if 0 ≤ hh ∧ hh < 24 ∧ 0 ≤ mm ∧ mm < 60 then
        let target := resolveTarget now hh.toNat mm.toNat
        let content := joinWithSpace (a :: restArgs)
        let jid := jobId (st.reminders.length + 1) (pyTimestampSec target)
        ({ st with reminders := st.reminders ++ [⟨jid, target, chat_id, content⟩] },
         [⟨jid, target, chat_id, content⟩], RemindOutcome.scheduled target)
      else (st, [], RemindOutcome.timeFormatError)
  | _ => (st, [], RemindOutcome.usage)

/-- One inbound `/remind` request: raw arguments, request time, and the
originating chat. -/
structure RemindOp where
  args : List (List Char)
  now : PyDateTime
  chat_id : ℤ
  deriving Repr

/-- A sequence of reminder creations applied to the store. -/
def applyReminds (st : BotState) (ops : List RemindOp) : BotState :=
  ops.foldl (fun s op => (remind_command op.args op.now op.chat_id s).1) st

/-! ## Cancel (spec §4.3) -/

/-- Status of a reminder in the spec's state machine. -/
inductive ReminderStatus where
  | pending
  | fired
  | cancelled
  deriving DecidableEq, Repr

/-- Modelled from the spec: the `ReminderRecord` of §3, carrying the
`status` field (`pending`/`fired`/`cancelled`) that the Python source does
not implement. -/
structure SpecReminder where
  id : List Char
  scheduledAt : PyDateTime
  endpoint : ℤ
  payload : List Char
  status : ReminderStatus
  deriving DecidableEq, Repr

/-- Errors of the spec's error taxonomy raised by `Cancel` (§7). -/
inductive CancelError where
  | notFound
  | invalidState
  deriving DecidableEq, Repr

/-- Modelled from the spec: `Cancel(id)` of §4.3, which `telegram_bot.py`
does not implement.  Looks the record up; if `pending`, disarms the
outstanding timer and transitions the record to `cancelled`; fails with
`NotFoundError` for unknown ids and `InvalidStateError` when the record is
already terminal. -/
def cancelReminder (rs : List SpecReminder) (timers : List (List Char))
    (id : List Char) : Except CancelError (List SpecReminder × List (List Char)) :=
  match rs.find? (fun r => r.id == id) with
  | none => Except.error CancelError.notFound
  | some r =>
    match r.status with
    | ReminderStatus.pending =>
      Except.ok
        (rs.map (fun x => if x.id == id then { x with status := ReminderStatus.cancelled } else x),
         timers.filter (fun t => !(t == id)))
    | _ => Except.error CancelError.invalidState

/-! ## JSON persistence (`save_state` / `load_state`, lines 77-94)

`save_state` writes `json.dump(state, f, ensure_ascii=False, indent=2)` and
`load_state` reads the file back with `json.load`.  The document tree is a
JSON value: `null`, booleans, integers (the only numbers the document
contains), strings, arrays, and objects with insertion-ordered keys. -/

mutual
inductive Json where
  | null : Json
  | bool : Bool → Json
  | num : ℤ → Json
  | str : List Char → Json
  | arr : JsonList → Json
  | obj : JsonObj → Json

inductive JsonList where
  | nil : JsonList
  | cons : Json → JsonList → JsonList

inductive JsonObj where
  | onil : JsonObj
  | ocons : List Char → Json → JsonObj → JsonObj
end

/-- Lower-case hexadecimal digit, as emitted by Python's `json` encoder. -/
def hexDigit (n : ℕ) : Char :=
  match n with
  | 0 => '0' | 1 => '1' | 2 => '2' | 3 => '3' | 4 => '4' | 5 => '5'
  | 6 => '6' | 7 => '7' | 8 => '8' | 9 => '9' | 10 => 'a' | 11 => 'b'
  | 12 => 'c' | 13 => 'd' | 14 => 'e' | _ => 'f'

/-- Value of a hexadecimal digit character (upper or lower case). -/
def hexVal (c : Char) : ℕ :=
  if c.isDigit then digitVal c
  else if 'a' ≤ c ∧ c ≤ 'f' then c.toNat - 87
  else if 'A' ≤ c ∧ c ≤ 'F' then c.toNat - 55
  else 0

/-- String escaping of `json.dump` with `ensure_ascii=False`: only `"`,
`\`, and control characters below `0x20` are escaped; the common controls
get their short forms, the rest become `\u00XX`. -/
def escapeChar (c : Char) : List Char :=
  if c = '"' then ['\\', '"']
  else if c = '\\' then ['\\', '\\']
  else if c = '\x08' then ['\\', 'b']
  else if c = '\x0c' then ['\\', 'f']
  else if c = '\n' then ['\\', 'n']
  else if c = '\r' then ['\\', 'r']
  else if c = '\t' then ['\\', 't']
  else if c.toNat < 32 then
    ['\\', 'u', '0', '0', hexDigit (c.toNat / 16), hexDigit (c.toNat % 16)]
  else [c]

/-- Escape a whole string body. -/
def escapeStr (l : List Char) : List Char := (l.map escapeChar).flatten

/-- The `indent=2` padding: `2 * level` spaces after each newline. -/
def wsPad (lvl : ℕ) : List Char := List.replicate (2 * lvl) ' '

mutual
/-- Rendering of `json.dump(·, ensure_ascii=False, indent=2)` at a given
indentation level: items of containers are placed one per line, separated by
`","`, keys are followed by `": "`, and closing brackets return to the
enclosing level's indentation. -/
def printJson : ℕ → Json → List Char
  | _, .null => ['n', 'u', 'l', 'l']
  | _, .bool true => ['t', 'r', 'u', 'e']
  | _, .bool false => ['f', 'a', 'l', 's', 'e']
  | _, .num z => intRepr z
  | _, .str s => '"' :: (escapeStr s ++ ['"'])
  | _, .arr .nil => ['[', ']']
  | lvl, .arr (.cons h t) =>
    '[' :: '\n' :: (wsPad (lvl + 1) ++ printJson (lvl + 1) h ++ printItems (lvl + 1) t
      ++ '\n' :: (wsPad lvl ++ [']']))
  | _, .obj .onil => ['\x7b', '\x7d']
  | lvl, .obj (.ocons k v t) =>
    '\x7b' :: '\n' :: (wsPad (lvl + 1) ++ '"' :: (escapeStr k
      ++ '"' :: ':' :: ' ' :: (printJson (lvl + 1) v ++ printFields (lvl + 1) t
        ++ '\n' :: (wsPad lvl ++ ['\x7d']))))

/-- Second and later array items: `",\n" ++ padding ++ item`. -/
def printItems : ℕ → JsonList → List Char
  | _, .nil => []
  | lvl, .cons h t => ',' :: '\n' :: (wsPad lvl ++ printJson lvl h ++ printItems lvl t)

/-- Second and later object fields: `",\n" ++ padding ++ key ++ ": " ++ value`. -/
def printFields : ℕ → JsonObj → List Char
  | _, .onil => []
  | lvl, .ocons k v t =>
    ',' :: '\n' :: (wsPad lvl ++ '"' :: (escapeStr k
      ++ '"' :: ':' :: ' ' :: (printJson lvl v ++ printFields lvl t)))
end

/-- JSON whitespace skipped by the decoder. -/
def isWsChar (c : Char) : Bool := c = ' ' || c = '\t' || c = '\n' || c = '\r'

/-- Skip leading JSON whitespace. -/
def skipWs (l : List Char) : List Char := l.dropWhile isWsChar

/-- Short escape sequences accepted inside a JSON string. -/
def shortUnescape (e : Char) : Option Char :=
  if e = '"' then some '"'
  else if e = '\\' then some '\\'
  else if e = '/' then some '/'
  else if e = 'b' then some '\x08'
  else if e = 'f' then some '\x0c'
  else if e = 'n' then some '\n'
  else if e = 'r' then some '\r'
  else if e = 't' then some '\t'
  else none

/-- Decoder of a JSON string body (after the opening quote): plain
characters up to the closing quote, with `\`-escapes and `\uXXXX` decoded. -/
def parseStringBody : List Char → Option (List Char × List Char)
  | [] => none
  | c :: r =>
    if c = '"' then some ([], r)
    else if c = '\\' then
      match r with
      | 'u' :: a :: b :: c2 :: d :: r2 =>
        (parseStringBody r2).map (fun p =>
          (Char.ofNat (4096 * hexVal a + 256 * hexVal b + 16 * hexVal c2 + hexVal d) :: p.1,
           p.2))
      | e :: r2 =>
        match shortUnescape e with
        | some ch => (parseStringBody r2).map (fun p => (ch :: p.1, p.2))
        | none => none
      | [] => none
    else (parseStringBody r).map (fun p => (c :: p.1, p.2))

/-- Decoder of an unsigned decimal run. -/
def parseNatNum (l : List Char) : Option (ℕ × List Char) :=
  if l.takeWhile Char.isDigit = [] then none
  else some (digitsVal (l.takeWhile Char.isDigit), l.dropWhile Char.isDigit)

/-- Decoder of a JSON integer (the only number form the document uses). -/
def parseNum (l : List Char) : Option (ℤ × List Char) :=
  match l with
  | [] => none
  | c :: r =>
    if c = '-' then (parseNatNum r).map (fun p => (-(p.1 : ℤ), p.2))
    else (parseNatNum l).map (fun p => ((p.1 : ℤ), p.2))

mutual
/-- Recursive-descent JSON value decoder (the shape of `json.load`): skip
whitespace, then dispatch on the first character.  `fuel` bounds the
recursion depth; any value at least `jfuelV` of the document suffices. -/
def parseValue : ℕ → List Char → Option (Json × List Char)
  | 0, _ => none
  | fuel + 1, input =>
    match skipWs input with
    | [] => none
    | c :: r =>
      if c = '"' then (parseStringBody r).map (fun p => (Json.str p.1, p.2))
      else if c = '[' then
        match skipWs r with
        | [] => none
        | d :: r2 =>
          if d = ']' then some (Json.arr JsonList.nil, r2)
          else (parseItems fuel (d :: r2)).map (fun p => (Json.arr p.1, p.2))
      else if c = '\x7b' then
        match skipWs r with
        | [] => none
        | d :: r2 =>
          if d = '\x7d' then some (Json.obj JsonObj.onil, r2)
          else (parseFields fuel (d :: r2)).map (fun p => (Json.obj p.1, p.2))
      else if c = 't' then
        match r with
        | 'r' :: 'u' :: 'e' :: r2 => some (Json.bool true, r2)
        | _ => none
      else if c = 'f' then
        match r with
        | 'a' :: 'l' :: 's' :: 'e' :: r2 => some (Json.bool false, r2)
        | _ => none
      else if c = 'n' then
        match r with
        | 'u' :: 'l' :: 'l' :: r2 => some (Json.null, r2)
        | _ => none
      else (parseNum (c :: r)).map (fun p => (Json.num p.1, p.2))

/-- Decoder of the items of a nonempty array, up to and including `]`. -/
def parseItems : ℕ → List Char → Option (JsonList × List Char)
  | 0, _ => none
  | fuel + 1, input =>
    match parseValue fuel input with
    | none => none
    | some (v, r) =>
      match skipWs r with
      | ',' :: r2 => (parseItems fuel r2).map (fun p => (JsonList.cons v p.1, p.2))
      | ']' :: r2 => some (JsonList.cons v JsonList.nil, r2)
      | _ => none

/-- Decoder of the fields of a nonempty object, up to and including the
closing brace. -/
def parseFields : ℕ → List Char → Option (JsonObj × List Char)
  | 0, _ => none
  | fuel + 1, input =>
    match skipWs input with
    | [] => none
    | c :: r =>
      if c = '"' then
        match parseStringBody r with
        | none => none
        | some (k, r2) =>
          match skipWs r2 with
          | ':' :: r3 =>
            match parseValue fuel r3 with
            | none => none
            | some (v, r4) =>
              match skipWs r4 with
              | ',' :: r5 => (parseFields fuel r5).map (fun p => (JsonObj.ocons k v p.1, p.2))
              | '\x7d' :: r5 => some (JsonObj.ocons k v JsonObj.onil, r5)
              | _ => none
          | _ => none
      else none
end

mutual
/-- Recursion-depth budget of `parseValue` on a document. -/
def jfuelV : Json → ℕ
  | .null => 1
  | .bool _ => 1
  | .num _ => 1
  | .str _ => 1
  | .arr l => 1 + jfuelL l
  | .obj o => 1 + jfuelO o

/-- Budget of `parseItems` on an item list. -/
def jfuelL : JsonList → ℕ
  | .nil => 1
  | .cons h t => 1 + jfuelV h + jfuelL t

/-- Budget of `parseFields` on a field list. -/
def jfuelO : JsonObj → ℕ
  | .onil => 1
  | .ocons _ v t => 1 + jfuelV v + jfuelO t
end

/-- `save_state`: the text written to `state.json` for a document. -/
def dumps (j : Json) : List Char := printJson 0 j

/-- `load_state` on an existing file: decode the stored text, requiring that
nothing but whitespace follows the document. -/
def loads (l : List Char) : Option Json :=
  match parseValue (l.length + 1) l with
  | some (j, r) => if skipWs r = [] then some j else none
  | none => none

/-- The printed form of a whole nonempty item list: the first item followed
by the remaining `printItems` (glue definition for the round-trip
statement). -/
def printItemsFull (lvl : ℕ) : JsonList → List Char
  | .nil => []
  | .cons h t => printJson lvl h ++ printItems lvl t

/-- The printed form of a whole nonempty field list. -/
def printFieldsFull (lvl : ℕ) : JsonObj → List Char
  | .onil => []
  | .ocons k v t =>
    '"' :: (escapeStr k ++ '"' :: ':' :: ' ' :: (printJson lvl v ++ printFields lvl t))

/-- A list consisting solely of JSON whitespace. -/
def IsWsList (l : List Char) : Prop := ∀ c ∈ l, isWsChar c = true

/-- A trailing context that cannot extend a printed number: empty, or headed
by a non-digit. -/
def RestOk : List Char → Prop
  | [] => True
  | c :: _ => c.isDigit = false

/-- The closing context of a printed container: a newline, indentation, the
closing bracket, then the outer rest. -/
def Closer (brk : Char) (closer rest : List Char) : Prop :=
  ∃ p, IsWsList p ∧ closer = '\n' :: (p ++ brk :: rest)

/-- Round-trip statement for a value: the decoder consumes exactly the
printed form (after any whitespace prefix) and returns the document. -/
def Pval (j : Json) : Prop :=
  ∀ lvl fuel pre rest, IsWsList pre → jfuelV j ≤ fuel → RestOk rest →
    parseValue fuel (pre ++ (printJson lvl j ++ rest)) = some (j, rest)

/-- Round-trip statement for a nonempty item list. -/
def Pitems (l : JsonList) : Prop :=
  ∀ lvl fuel pre closer rest, IsWsList pre → jfuelL l ≤ fuel →
    Closer ']' closer rest → l ≠ JsonList.nil →
    parseItems fuel (pre ++ (printItemsFull lvl l ++ closer)) = some (l, rest)

/-- Round-trip statement for a nonempty field list. -/
def Pfields (o : JsonObj) : Prop :=
  ∀ lvl fuel pre closer rest, IsWsList pre → jfuelO o ≤ fuel →
    Closer '\x7d' closer rest → o ≠ JsonObj.onil →
    parseFields fuel (pre ++ (printFieldsFull lvl o ++ closer)) = some (o, rest)

/-! ## Concrete documents and invariants used by the theorems -/

/-- A concrete clock value: midnight of day 1. -/
def exNow : PyDateTime := ⟨1, 0, 0, 0, 0⟩

/-- A concrete document at `exNow`: fed an hour ago, last drink 24 hours
ago, one registered reminder. -/
def exSt : BotState :=
  { last_feed := some ⟨0, 23, 0, 0, 0⟩
    last_drink := some ⟨0, 0, 0, 0, 0⟩
    last_sleep := some ⟨0, 23, 0, 0, 0⟩
    users := []
    reminders := [⟨jobId 1 90000, ⟨1, 1, 0, 0, 0⟩, 5, ['h', 'i']⟩] }

/-- Position invariant of the reminders list: the record at index `i` was
created as the `(i+1)`-st reminder, so its job id embeds the sequence number
`i+1`. -/
def SeqOk (rs : List ReminderRecord) : Prop :=
  ∀ i (h : i < rs.length), ∃ t, (rs[i]).job_id = jobId (i + 1) t

/-! # Theorems -/

/-! ## Decimal rendering lemmas -/

/-- Digit characters decode to their value. -/
theorem digitVal_digitChar (n : ℕ) (h : n < 10) : digitVal (digitChar n) = n := by
  interval_cases n <;> decide

/-- Digit characters are digits. -/
theorem isDigit_digitChar (n : ℕ) : (digitChar n).isDigit = true := by
  unfold digitChar
  split <;> decide

/-- Every character of `natReprAux` is a digit. -/
theorem natReprAux_digits (fuel : ℕ) : ∀ n, ∀ c ∈ natReprAux fuel n, c.isDigit = true := by
  induction fuel with
  | zero =>
    intro n c hc
    simp only [natReprAux, List.mem_singleton] at hc
    subst hc
    exact isDigit_digitChar _
  | succ f ih =>
    intro n c hc
    unfold natReprAux at hc
    split at hc
    · simp only [List.mem_singleton] at hc
      subst hc
      exact isDigit_digitChar _
    · simp only [List.mem_append, List.mem_singleton] at hc
      rcases hc with h | h
      · exact ih _ c h
      · subst h
        exact isDigit_digitChar _

/-- Every character of `natRepr` is a digit. -/
theorem natRepr_digits (n : ℕ) : ∀ c ∈ natRepr n, c.isDigit = true :=
  natReprAux_digits n n

/-- `digitsVal` of a string extended by one digit. -/
theorem digitsVal_append_singleton (l : List Char) (c : Char) :
    digitsVal (l ++ [c]) = 10 * digitsVal l + digitVal c := by
  simp [digitsVal, List.foldl_append]

/-- `natReprAux` renders faithfully when given enough fuel. -/
theorem digitsVal_natReprAux (fuel : ℕ) : ∀ n, n ≤ fuel → digitsVal (natReprAux fuel n) = n := by
  induction fuel with
  | zero =>
    intro n hn
    interval_cases n
    decide
  | succ f ih =>
    intro n hn
    unfold natReprAux
    split
    case isTrue h =>
      simp [digitsVal]
      exact digitVal_digitChar n h
    case isFalse h =>
      rw [digitsVal_append_singleton, ih (n / 10) (by omega), digitVal_digitChar _ (by omega)]
      omega

/-- `digitsVal` inverts `natRepr`. -/
theorem digitsVal_natRepr (n : ℕ) : digitsVal (natRepr n) = n :=
  digitsVal_natReprAux n n le_rfl

/-- `natReprAux` is never empty. -/
theorem natReprAux_ne_nil (fuel n : ℕ) : natReprAux fuel n ≠ [] := by
  cases fuel with
  | zero => simp [natReprAux]
  | succ f =>
    unfold natReprAux
    split <;> simp

/-- `natRepr` is never empty. -/
theorem natRepr_ne_nil (n : ℕ) : natRepr n ≠ [] := natReprAux_ne_nil n n

/-- Digits are not underscores. -/
theorem digit_ne_underscore {c : Char} (h : c.isDigit = true) : c ≠ '_' := by
  intro h'
  subst h'
  exact absurd h (by decide)

/-- Cancelling a separator-terminated prefix: if neither prefix contains the
separator, equal concatenations have equal parts. -/
theorem append_sep_inj {sep : Char} {l1 l2 r1 r2 : List Char}
    (h1 : ∀ c ∈ l1, c ≠ sep) (h2 : ∀ c ∈ l2, c ≠ sep)
    (h : l1 ++ sep :: r1 = l2 ++ sep :: r2) : l1 = l2 ∧ r1 = r2 := by
  induction l1 generalizing l2 with
  | nil =>
    cases l2 with
    | nil => simpa using h
    | cons y l2' =>
      simp only [List.nil_append, List.cons_append, List.cons.injEq] at h
      exact absurd h.1.symm (h2 y (by simp))
  | cons x l1' ih =>
    cases l2 with
    | nil =>
      simp only [List.nil_append, List.cons_append, List.cons.injEq] at h
      exact absurd h.1 (h1 x (by simp))
    | cons y l2' =>
      simp only [List.cons_append, List.cons.injEq] at h
      obtain ⟨rfl, h'⟩ := h
      obtain ⟨e1, e2⟩ := ih (fun c hc => h1 c (by simp [hc])) (fun c hc => h2 c (by simp [hc])) h'
      exact ⟨by rw [e1], e2⟩

/-- The sequence number embedded in a job id determines it: two job ids with
different sequence numbers are different strings. -/
theorem jobId_inj_seq {s1 s2 : ℕ} {t1 t2 : ℤ} (h : jobId s1 t1 = jobId s2 t2) : s1 = s2 := by
  unfold jobId at h
  rw [List.append_assoc, List.append_assoc] at h
  have h' := List.append_cancel_left h
  have e := append_sep_inj
    (fun c hc => digit_ne_underscore (natRepr_digits s1 c hc))
    (fun c hc => digit_ne_underscore (natRepr_digits s2 c hc)) h'
  have := congrArg digitsVal e.1
  simpa [digitsVal_natRepr] using this

/-! ## Threshold evaluator lemmas -/

/-- An absent timestamp is always due. -/
theorem isDue_none (h : ℚ) (now : PyDateTime) : isDue none h now = true := by
  simp [isDue, time_since_hours]

/-- The due test on a present timestamp is the plain rational comparison. -/
theorem isDue_some_eq (dt now : PyDateTime) (h : ℚ) :
    isDue (some dt) h now =
      decide (h ≤ (((now.toMicro - dt.toMicro : ℤ) : ℚ) / 1000000) / 3600) := by
  unfold isDue time_since_hours
  exact decide_eq_decide.mpr WithTop.coe_le_coe

/-! ## C1: threshold evaluator -/

/-- C1: `IsDue(lastActionAt, thresholdHours, now)` returns true whenever
`lastActionAt` is absent; otherwise, for timestamps `lastActionAt ≤ now`, it
returns true iff the elapsed time in hours is at least the threshold, with
exact equality counting as due. -/
theorem C1_isDue_threshold (last : Option PyDateTime) (h : ℚ) (now : PyDateTime) :
    (last = none → isDue last h now = true) ∧
    (∀ dt, last = some dt → dt.toMicro ≤ now.toMicro →
      (isDue last h now = true ↔
        h ≤ (((now.toMicro - dt.toMicro : ℤ) : ℚ) / 1000000) / 3600)) := by
  constructor
  · rintro rfl
    simp [isDue, time_since_hours]
  · rintro dt rfl -
    simp [isDue, time_since_hours]

/-- Witness for C1, at the boundary: last feed exactly six hours ago is due
with threshold six. -/
theorem C1_witness :
    isDue (some ⟨0, 0, 0, 0, 0⟩) 6 ⟨0, 6, 0, 0, 0⟩ = true :=
  ((C1_isDue_threshold (some ⟨0, 0, 0, 0, 0⟩) 6 ⟨0, 6, 0, 0, 0⟩).2
    ⟨0, 0, 0, 0, 0⟩ rfl (by decide)).mpr (by norm_num [PyDateTime.toMicro])

/-! ## C2: one-shot scheduling resolution -/

/-- C2: the scheduled time of a one-shot reminder is today at
`{hour, minute}` UTC, rolled forward by exactly one day when that candidate
is not strictly in the future; in particular a reminder requested at
`14:00` for `09:00` is scheduled at `09:00` the following day. -/
theorem C2_schedule_resolution (now : PyDateTime) (hh mm : ℕ)
    (hhh : hh < 24) (hmm : mm < 60) :
    (resolveTarget now hh mm).hour = hh ∧
    (resolveTarget now hh mm).minute = mm ∧
    ((replaceHM now hh mm).toMicro ≤ now.toMicro →
      resolveTarget now hh mm = addDays (replaceHM now hh mm) 1) ∧
    (now.toMicro < (replaceHM now hh mm).toMicro →
      resolveTarget now hh mm = replaceHM now hh mm) ∧
    resolveTarget ⟨0, 14, 0, 0, 0⟩ 9 0 = ⟨1, 9, 0, 0, 0⟩ := by
  refine ⟨?_, ?_, ?_, ?_, by decide⟩
  · unfold resolveTarget
    split <;> rfl
  · unfold resolveTarget
    split <;> rfl
  · intro hle
    unfold resolveTarget
    rw [if_pos hle]
  · intro hlt
    unfold resolveTarget
    rw [if_neg (not_le.mpr hlt)]

/-- Witness for C2: the `14:00` request for `09:00` lands on `09:00` of the
next day. -/
theorem C2_witness : resolveTarget ⟨0, 14, 0, 0, 0⟩ 9 0 = ⟨1, 9, 0, 0, 0⟩ :=
  (C2_schedule_resolution ⟨0, 14, 0, 0, 0⟩ 9 0 (by decide) (by decide)).2.2.2.2

/-! ## C3: timer-fire behaviour -/

/-- Counterexample to C3 as stated: firing a reminder leaves the persisted
document unchanged (no `pending → fired` transition is recorded), and a
second invocation for the same reminder emits a second, identical
notification rather than being a no-op. -/
theorem C3_counterexample :
    (fireReminder exSt 5 ['h', 'i']).1 = exSt ∧
    (fireReminder ((fireReminder exSt 5 ['h', 'i']).1) 5 ['h', 'i']).2 =
      [(5, "🔔 提醒：".data ++ ['h', 'i'])] ∧
    (fireReminder ((fireReminder exSt 5 ['h', 'i']).1) 5 ['h', 'i']).2 ≠ [] := by
  exact ⟨rfl, rfl, by decide⟩

/-- C3 (amended): when a reminder's timer fires, the handler emits exactly
one notification built from the stored chat id and content; it performs no
record lookup and no status transition (the persisted document passes
through unchanged), and a repeated invocation for the same reminder emits
the same notification again. -/
theorem C3_fire_emits_each_time (st : BotState) (chat_id : ℤ) (content : List Char) :
    fireReminder st chat_id content = (st, [(chat_id, "🔔 提醒：".data ++ content)]) ∧
    (fireReminder ((fireReminder st chat_id content).1) chat_id content).2 =
      (fireReminder st chat_id content).2 ∧
    ((fireReminder st chat_id content).2).length = 1 :=
  ⟨rfl, rfl, rfl⟩

/-! ## C4: periodic check -/

/-- Counterexample to C4 as stated: in `exSt` at `exNow` the drink action is
overdue (24 h since the last drink against a 4-hour threshold), yet the
periodic check emits no notification event at all — it only ever consults
the feed timestamp, and only logs. -/
theorem C4_counterexample :
    isDue exSt.last_drink DRINK_THRESHOLD_HOURS exNow = true ∧
    (check_and_notify exSt exNow).notifications = [] ∧
    (check_and_notify exSt exNow).logs = [] := by
  have hfeed : isDue exSt.last_feed FEED_THRESHOLD_HOURS exNow = false := by
    rw [show exSt.last_feed = some ⟨0, 23, 0, 0, 0⟩ from rfl, isDue_some_eq]
    rw [decide_eq_false_iff_not]
    norm_num [exNow, PyDateTime.toMicro, FEED_THRESHOLD_HOURS]
  refine ⟨?_, rfl, ?_⟩
  · rw [show exSt.last_drink = some ⟨0, 0, 0, 0, 0⟩ from rfl, isDue_some_eq]
    rw [decide_eq_true_eq]
    norm_num [exNow, PyDateTime.toMicro, DRINK_THRESHOLD_HOURS]
  · simp [check_and_notify, hfeed]

/-- C4 (amended): the periodic check runs on a fixed 30-minute interval and
evaluates `IsDue` only for the feed kind against its configured threshold,
logging an overdue notice when due; the drink and sleep kinds are not
evaluated (the output depends only on `last_feed`) and no notification
events are emitted. -/
theorem C4_periodic_check_feed_only (st : BotState) (now : PyDateTime) :
    periodic_check_interval_minutes = 30 ∧
    (check_and_notify st now).notifications = [] ∧
    ((check_and_notify st now).logs = ["需要提醒餵食".data] ↔
      isDue st.last_feed FEED_THRESHOLD_HOURS now = true) ∧
    (∀ st' : BotState, st'.last_feed = st.last_feed →
      check_and_notify st' now = check_and_notify st now) := by
  refine ⟨rfl, rfl, ?_, ?_⟩
  · unfold check_and_notify
    split
    case isTrue h => simpa using h
    case isFalse h => simpa using h
  · intro st' h
    unfold check_and_notify
    rw [h]

/-- Witness for C4 (amended): the check output is unchanged under a
modification of the sleep timestamp. -/
theorem C4_witness :
    check_and_notify { exSt with last_sleep := none } exNow = check_and_notify exSt exNow :=
  (C4_periodic_check_feed_only exSt exNow).2.2.2 { exSt with last_sleep := none } rfl

/-! ## C5: job-id uniqueness -/

/-- A reminder creation either leaves the reminders list unchanged (usage or
validation failure) or appends exactly one record whose job id embeds the
next sequence number. -/
theorem remind_reminders_cases (args : List (List Char)) (now : PyDateTime)
    (cid : ℤ) (st : BotState) :
    (remind_command args now cid st).1.reminders = st.reminders ∨
    ∃ r : ReminderRecord,
      r.job_id = jobId (st.reminders.length + 1) (pyTimestampSec r.run_at) ∧
      (remind_command args now cid st).1.reminders = st.reminders ++ [r] := by
  rcases args with _ | ⟨tp, _ | ⟨a, rargs⟩⟩
  · exact Or.inl rfl
  · exact Or.inl rfl
  · cases hp : parse_time_part tp with
    | none =>
      left
      simp [remind_command, hp]
    | some hm =>
      obtain ⟨hh, mm⟩ := hm
      by_cases hok : 0 ≤ hh ∧ hh < 24 ∧ 0 ≤ mm ∧ mm < 60
      · refine Or.inr ⟨⟨jobId (st.reminders.length + 1)
            (pyTimestampSec (resolveTarget now hh.toNat mm.toNat)),
          resolveTarget now hh.toNat mm.toNat, cid, joinWithSpace (a :: rargs)⟩, rfl, ?_⟩
        simp [remind_command, hp, hok]
      · left
        simp [remind_command, hp, hok]

/-- Appending a record carrying the next sequence number preserves the
position invariant. -/
theorem seqOk_append (rs : List ReminderRecord) (r : ReminderRecord) (t : ℤ)
    (hr : r.job_id = jobId (rs.length + 1) t) (h : SeqOk rs) : SeqOk (rs ++ [r]) := by
  intro i hi
  simp only [List.length_append, List.length_cons, List.length_nil] at hi
  rcases Nat.lt_or_ge i rs.length with hlt | hge
  · obtain ⟨t', ht'⟩ := h i hlt
    refine ⟨t', ?_⟩
    rw [List.getElem_append_left hlt]
    exact ht'
  · have hii : i = rs.length := by omega
    subst hii
    refine ⟨t, ?_⟩
    rw [List.getElem_append_right (le_refl _)]
    simpa using hr

/-- One reminder creation preserves the position invariant of the store. -/
theorem seqOk_remind (args : List (List Char)) (now : PyDateTime) (cid : ℤ)
    (st : BotState) (h : SeqOk st.reminders) :
    SeqOk (remind_command args now cid st).1.reminders := by
  rcases remind_reminders_cases args now cid st with he | ⟨r, hr, he⟩
  · rw [he]
    exact h
  · rw [he]
    exact seqOk_append st.reminders r _ hr h

/-- Every sequence of creations preserves the position invariant. -/
theorem seqOk_applyReminds (ops : List RemindOp) (st : BotState)
    (h : SeqOk st.reminders) : SeqOk (applyReminds st ops).reminders := by
  induction ops generalizing st with
  | nil => exact h
  | cons op ops ih =>
    simp only [applyReminds, List.foldl_cons]
    exact ih _ (seqOk_remind op.args op.now op.chat_id st h)

/-- The position invariant forces pairwise-distinct job ids. -/
theorem nodup_of_seqOk (rs : List ReminderRecord) (h : SeqOk rs) :
    (rs.map ReminderRecord.job_id).Nodup := by
  rw [List.nodup_iff_injective_get]
  rintro ⟨i, hi⟩ ⟨j, hj⟩ hij
  simp only [List.get_eq_getElem, List.getElem_map] at hij
  have hi' : i < rs.length := by simpa using hi
  have hj' : j < rs.length := by simpa using hj
  obtain ⟨t1, e1⟩ := h i hi'
  obtain ⟨t2, e2⟩ := h j hj'
  rw [e1, e2] at hij
  have hs := jobId_inj_seq hij
  simp only [Fin.mk.injEq]
  omega

/-- C5: within one store lifetime (starting from the fresh document and
applying any sequence of reminder creations) no two reminder records ever
carry the same job id. -/
theorem C5_unique_ids (ops : List RemindOp) :
    ((applyReminds freshState ops).reminders.map ReminderRecord.job_id).Nodup :=
  nodup_of_seqOk _ (seqOk_applyReminds ops freshState (by intro i hi; simp [freshState] at hi))

/-! ## C6: validation is all-or-nothing -/

/-- C6: a reminder request whose time specification does not parse (or whose
hour/minute are out of range, which `now.replace` rejects) fails with the
validation error reply, mutating no state and arming no timer. -/
theorem C6_bad_time_no_mutation (timePart a : List Char) (restArgs : List (List Char))
    (now : PyDateTime) (cid : ℤ) (st : BotState)
    (hbad : parse_time_part timePart = none ∨
      ∀ hh mm, parse_time_part timePart = some (hh, mm) →
        ¬(0 ≤ hh ∧ hh < 24 ∧ 0 ≤ mm ∧ mm < 60)) :
    remind_command (timePart :: a :: restArgs) now cid st =
      (st, [], RemindOutcome.timeFormatError) := by
  cases hp : parse_time_part timePart with
  | none => simp [remind_command, hp]
  | some hm =>
    obtain ⟨hh, mm⟩ := hm
    rcases hbad with h | h
    · rw [hp] at h
      exact absurd h (by simp)
    · simp [remind_command, hp, h hh mm hp]

/-- Witness for C6: the unparsable specification `"ab:cd"` is rejected with
no state change and no armed timer. -/
theorem C6_witness :
    remind_command ["ab:cd".data, "水".data] ⟨0, 14, 0, 0, 0⟩ 5 freshState =
      (freshState, [], RemindOutcome.timeFormatError) :=
  C6_bad_time_no_mutation "ab:cd".data "水".data [] ⟨0, 14, 0, 0, 0⟩ 5 freshState
    (Or.inl (by decide))

/-! ## C7: Cancel (modelled from the spec) -/

/-- C7: `Cancel(id)` on a pending reminder disarms its timer and transitions
it to `cancelled`; it fails with `NotFoundError` for unknown ids and with
`InvalidStateError` for reminders already terminal, leaving the store
untouched in the error cases (an already-fired reminder stays `fired`). -/
theorem C7_cancel (rs : List SpecReminder) (timers : List (List Char)) (id : List Char) :
    (rs.find? (fun r => r.id == id) = none →
      cancelReminder rs timers id = Except.error CancelError.notFound) ∧
    (∀ r, rs.find? (fun r => r.id == id) = some r → r.status = ReminderStatus.pending →
      cancelReminder rs timers id = Except.ok
        (rs.map (fun x => if x.id == id then { x with status := ReminderStatus.cancelled } else x),
         timers.filter (fun t => !(t == id)))) ∧
    (∀ r, rs.find? (fun r => r.id == id) = some r → r.status ≠ ReminderStatus.pending →
      cancelReminder rs timers id = Except.error CancelError.invalidState) := by
  refine ⟨?_, ?_, ?_⟩
  · intro hf
    unfold cancelReminder
    rw [hf]
  · rintro ⟨rid, rsch, rep, rpl, rstatus⟩ hf hs
    cases rstatus with
    | pending =>
      unfold cancelReminder
      rw [hf]
    | fired => exact absurd hs (by simp)
    | cancelled => exact absurd hs (by simp)
  · rintro ⟨rid, rsch, rep, rpl, rstatus⟩ hf hs
    cases rstatus with
    | pending => exact absurd rfl hs
    | fired =>
      unfold cancelReminder
      rw [hf]
    | cancelled =>
      unfold cancelReminder
      rw [hf]

/-- Witness for C7: cancelling an already-fired reminder fails with
`InvalidStateError`. -/
theorem C7_witness :
    cancelReminder [⟨['a'], ⟨0, 0, 0, 0, 0⟩, 1, [], ReminderStatus.fired⟩] [] ['a'] =
      Except.error CancelError.invalidState :=
  (C7_cancel [⟨['a'], ⟨0, 0, 0, 0, 0⟩, 1, [], ReminderStatus.fired⟩] [] ['a']).2.2
    ⟨['a'], ⟨0, 0, 0, 0, 0⟩, 1, [], ReminderStatus.fired⟩ (by decide) (by decide)

/-! ## C9: RecordAction frame property -/

/-- C9: `RecordAction(kind, at)` sets only the corresponding last-action
field and persists the whole updated document; the other two timestamps, the
users mapping and the reminders list are unchanged. -/
theorem C9_record_action_frame (k : ActionKind) (now : PyDateTime) (st : BotState) :
    (record_action k now st).2 = (record_action k now st).1 ∧
    (record_action k now st).1.users = st.users ∧
    (record_action k now st).1.reminders = st.reminders ∧
    (match k with
     | .feed => (record_action k now st).1.last_feed = some now ∧
         (record_action k now st).1.last_drink = st.last_drink ∧
         (record_action k now st).1.last_sleep = st.last_sleep
     | .drink => (record_action k now st).1.last_drink = some now ∧
         (record_action k now st).1.last_feed = st.last_feed ∧
         (record_action k now st).1.last_sleep = st.last_sleep
     | .sleep => (record_action k now st).1.last_sleep = some now ∧
         (record_action k now st).1.last_feed = st.last_feed ∧
         (record_action k now st).1.last_drink = st.last_drink) := by
  cases k <;> simp [record_action, feed_command, drink_command, sleep_command]

/-! ## C10: scheduled time is a whole minute within the next 24 hours -/

/-- C10: every successfully created reminder has zero seconds and
microseconds in its scheduled time, which lies strictly after `now` and at
most 24 hours after it. -/
theorem C10_scheduled_time_bounds (now : PyDateTime) (hv : now.Valid)
    (hh mm : ℕ) (hhh : hh < 24) (hmm : mm < 60) :
    (resolveTarget now hh mm).second = 0 ∧
    (resolveTarget now hh mm).microsecond = 0 ∧
    now.toMicro < (resolveTarget now hh mm).toMicro ∧
    (resolveTarget now hh mm).toMicro ≤ now.toMicro + 86400000000 := by
  obtain ⟨hva, hvb, hvc, hvd⟩ := hv
  unfold resolveTarget
  split
  case isTrue h =>
    refine ⟨rfl, rfl, ?_, ?_⟩ <;>
    · simp only [addDays, replaceHM, PyDateTime.toMicro] at h ⊢
      omega
  case isFalse h =>
    rw [not_le] at h
    refine ⟨rfl, rfl, h, ?_⟩
    simp only [replaceHM, PyDateTime.toMicro] at h ⊢
    omega

/-! ## C8: JSON round trip — whitespace and character lemmas -/

/-- Skipping whitespace passes over a whitespace character. -/
theorem skipWs_cons_of_pos (c : Char) (x : List Char) (h : isWsChar c = true) :
    skipWs (c :: x) = skipWs x := by
  simp [skipWs, List.dropWhile_cons, h]

/-- Skipping whitespace stops at a non-whitespace character. -/
theorem skipWs_cons_of_neg (c : Char) (x : List Char) (h : isWsChar c = false) :
    skipWs (c :: x) = c :: x := by
  simp [skipWs, List.dropWhile_cons, h]

/-- Skipping whitespace removes a whitespace prefix. -/
theorem skipWs_append_ws (p x : List Char) (hp : IsWsList p) :
    skipWs (p ++ x) = skipWs x := by
  induction p with
  | nil => rfl
  | cons c cs ih =>
    rw [List.cons_append, skipWs_cons_of_pos c _ (hp c (by simp))]
    exact ih (fun d hd => hp d (by simp [hd]))

/-- Indentation padding is whitespace. -/
theorem wsPad_isWsList (lvl : ℕ) : IsWsList (wsPad lvl) := by
  intro c hc
  rw [List.eq_of_mem_replicate hc]
  decide

/-- The empty prefix is whitespace. -/
theorem nil_isWsList : IsWsList ([] : List Char) := by
  intro c hc
  cases hc

/-- A digit differs from any non-digit character. -/
theorem ne_of_isDigit {c : Char} (x : Char) (h : c.isDigit = true)
    (hx : x.isDigit = false) : c ≠ x := by
  intro he
  subst he
  rw [h] at hx
  exact Bool.noConfusion hx

/-- A decimal digit is not whitespace and differs from every structural
character the value dispatcher tests. -/
theorem digit_head_facts {d : Char} (hd : d.isDigit = true) :
    isWsChar d = false ∧ d ≠ '"' ∧ d ≠ '[' ∧ d ≠ '\x7b' ∧ d ≠ 't' ∧ d ≠ 'f' ∧
      d ≠ 'n' ∧ d ≠ '-' ∧ d ≠ ']' ∧ d ≠ '\x7d' ∧ d ≠ ',' := by
  have s1 := ne_of_isDigit ' ' hd (by decide)
  have s2 := ne_of_isDigit '\t' hd (by decide)
  have s3 := ne_of_isDigit '\n' hd (by decide)
  have s4 := ne_of_isDigit '\r' hd (by decide)
  refine ⟨?_, ne_of_isDigit _ hd (by decide), ne_of_isDigit _ hd (by decide),
    ne_of_isDigit _ hd (by decide), ne_of_isDigit _ hd (by decide),
    ne_of_isDigit _ hd (by decide), ne_of_isDigit _ hd (by decide),
    ne_of_isDigit _ hd (by decide), ne_of_isDigit _ hd (by decide),
    ne_of_isDigit _ hd (by decide), ne_of_isDigit _ hd (by decide)⟩
  simp [isWsChar, s1, s2, s3, s4]

/-- `takeWhile`/`dropWhile` split an all-satisfying prefix off exactly. -/
theorem takeWhile_all_append (p : Char → Bool) (l1 l2 : List Char)
    (h1 : ∀ c ∈ l1, p c = true) (h2 : ∀ c cs, l2 = c :: cs → p c = false) :
    (l1 ++ l2).takeWhile p = l1 ∧ (l1 ++ l2).dropWhile p = l2 := by
  induction l1 with
  | nil =>
    simp only [List.nil_append]
    cases l2 with
    | nil => simp
    | cons c cs => simp [List.takeWhile_cons, List.dropWhile_cons, h2 c cs rfl]
  | cons a l1' ih =>
    have ha := h1 a (by simp)
    have hih := ih (fun c hc => h1 c (by simp [hc]))
    simp [List.takeWhile_cons, List.dropWhile_cons, ha, hih.1, hih.2]

/-- The number decoder inverts `natRepr` in any non-digit context. -/
theorem parseNatNum_natRepr (n : ℕ) (rest : List Char) (hr : RestOk rest) :
    parseNatNum (natRepr n ++ rest) = some (n, rest) := by
  have h2 : ∀ c cs, rest = c :: cs → Char.isDigit c = false := by
    intro c cs he
    rw [he] at hr
    exact hr
  obtain ⟨ht, hdw⟩ := takeWhile_all_append Char.isDigit (natRepr n) rest (natRepr_digits n) h2
  unfold parseNatNum
  rw [ht, hdw, if_neg (natRepr_ne_nil n), digitsVal_natRepr]

/-- One-step unfolding of the number decoder on a nonempty input. -/
theorem parseNum_cons (c : Char) (r : List Char) :
    parseNum (c :: r) =
      if c = '-' then (parseNatNum r).map (fun p => (-(p.1 : ℤ), p.2))
      else (parseNatNum (c :: r)).map (fun p => ((p.1 : ℤ), p.2)) := by
  rw [parseNum.eq_def]

/-- The number decoder inverts `intRepr` in any non-digit context. -/
theorem parseNum_intRepr (z : ℤ) (rest : List Char) (hr : RestOk rest) :
    parseNum (intRepr z ++ rest) = some (z, rest) := by
  unfold intRepr
  by_cases hz : z < 0
  · rw [if_pos hz, List.cons_append, parseNum_cons, if_pos rfl, parseNatNum_natRepr _ _ hr]
    simp only [Option.map_some']
    rw [show -((z.natAbs : ℕ) : ℤ) = z from by omega]
  · rw [if_neg hz]
    cases hnr : natRepr z.natAbs with
    | nil => exact absurd hnr (natRepr_ne_nil _)
    | cons d ds =>
      have hdig : d.isDigit = true :=
        natRepr_digits _ d (by rw [hnr]; exact List.mem_cons_self _ _)
      have hne : ¬ d = '-' := (digit_head_facts hdig).2.2.2.2.2.2.2.1
      rw [List.cons_append, parseNum_cons, if_neg hne, ← List.cons_append, ← hnr,
        parseNatNum_natRepr _ _ hr]
      simp only [Option.map_some']
      rw [show ((z.natAbs : ℤ)) = z from Int.natAbs_of_nonneg (by omega)]

/-- `hexDigit` decodes back to its value. -/
theorem hexVal_hexDigit (n : ℕ) (h : n < 16) : hexVal (hexDigit n) = n := by
  interval_cases n <;> decide

/-- Escaping distributes over cons. -/
theorem escapeStr_cons (c : Char) (s : List Char) :
    escapeStr (c :: s) = escapeChar c ++ escapeStr s := by
  simp [escapeStr]

/-- The string-body decoder inverts the escaper: it consumes the escaped
body and the closing quote, returning the original string. -/
theorem parseStringBody_escape (s rest : List Char) :
    parseStringBody (escapeStr s ++ '"' :: rest) = some (s, rest) := by
  induction s with
  | nil =>
    rw [show escapeStr [] = [] from rfl, List.nil_append, parseStringBody.eq_def]
    simp
  | cons c s ih =>
    rw [escapeStr_cons, List.append_assoc]
    by_cases h1 : c = '"'
    · subst h1
      rw [show escapeChar '"' = ['\\', '"'] from by simp [escapeChar], List.cons_append,
        List.cons_append, List.nil_append, parseStringBody.eq_def]
      simp [shortUnescape, ih]
    · by_cases h2 : c = '\\'
      · subst h2
        rw [show escapeChar '\\' = ['\\', '\\'] from by simp [escapeChar], List.cons_append,
          List.cons_append, List.nil_append, parseStringBody.eq_def]
        simp [shortUnescape, ih]
      · by_cases h3 : c = '\x08'
        · subst h3
          rw [show escapeChar '\x08' = ['\\', 'b'] from by simp [escapeChar], List.cons_append,
            List.cons_append, List.nil_append, parseStringBody.eq_def]
          simp [shortUnescape, ih]
        · by_cases h4 : c = '\x0c'
          · subst h4
            rw [show escapeChar '\x0c' = ['\\', 'f'] from by simp [escapeChar], List.cons_append,
              List.cons_append, List.nil_append, parseStringBody.eq_def]
            simp [shortUnescape, ih]
          · by_cases h5 : c = '\n'
            · subst h5
              rw [show escapeChar '\n' = ['\\', 'n'] from by simp [escapeChar], List.cons_append,
                List.cons_append, List.nil_append, parseStringBody.eq_def]
              simp [shortUnescape, ih]
            · by_cases h6 : c = '\r'
              · subst h6
                rw [show escapeChar '\r' = ['\\', 'r'] from by simp [escapeChar], List.cons_append,
                  List.cons_append, List.nil_append, parseStringBody.eq_def]
                simp [shortUnescape, ih]
              · by_cases h7 : c = '\t'
                · subst h7
                  rw [show escapeChar '\t' = ['\\', 't'] from by simp [escapeChar], List.cons_append,
                    List.cons_append, List.nil_append, parseStringBody.eq_def]
                  simp [shortUnescape, ih]
                · by_cases h8 : c.toNat < 32
                  · have he : escapeChar c =
                        ['\\', 'u', '0', '0', hexDigit (c.toNat / 16), hexDigit (c.toNat % 16)] := by
                      simp [escapeChar, h1, h2, h3, h4, h5, h6, h7, h8]
                    rw [he]
                    simp only [List.cons_append, List.nil_append]
                    rw [parseStringBody.eq_def]
                    simp [ih]
                    rw [hexVal_hexDigit _ (by omega), hexVal_hexDigit _ (by omega),
                      show hexVal '0' = 0 from by decide]
                    rw [show 4096 * 0 + 256 * 0 + 16 * (c.toNat / 16) + c.toNat % 16
                        = c.toNat from by omega, Char.ofNat_toNat]
                  · have he : escapeChar c = [c] := by
                      simp [escapeChar, h1, h2, h3, h4, h5, h6, h7, h8]
                    rw [he, List.cons_append, List.nil_append, parseStringBody.eq_def]
                    simp [h1, h2, ih]

/-- Every printed document starts with a non-whitespace character that is
not a closing bracket. -/
theorem printJson_head (lvl : ℕ) (j : Json) :
    ∃ d ds, printJson lvl j = d :: ds ∧ isWsChar d = false ∧ d ≠ ']' ∧ d ≠ '\x7d' := by
  cases j with
  | null => exact ⟨'n', _, rfl, by decide, by decide, by decide⟩
  | bool b =>
    cases b
    · exact ⟨'f', _, rfl, by decide, by decide, by decide⟩
    · exact ⟨'t', _, rfl, by decide, by decide, by decide⟩
  | num z =>
    by_cases hz : z < 0
    · refine ⟨'-', natRepr z.natAbs, ?_, by decide, by decide, by decide⟩
      simp [printJson, intRepr, hz]
    · cases hnr : natRepr z.natAbs with
      | nil => exact absurd hnr (natRepr_ne_nil _)
      | cons d ds =>
        have hdig : d.isDigit = true :=
          natRepr_digits _ d (by rw [hnr]; exact List.mem_cons_self _ _)
        obtain ⟨w1, _, _, _, _, _, _, _, w9, w10, _⟩ := digit_head_facts hdig
        refine ⟨d, ds, ?_, w1, w9, w10⟩
        simp [printJson, intRepr, hz, hnr]
  | str s => exact ⟨'"', _, rfl, by decide, by decide, by decide⟩
  | arr l =>
    cases l
    · exact ⟨'[', _, rfl, by decide, by decide, by decide⟩
    · exact ⟨'[', _, rfl, by decide, by decide, by decide⟩
  | obj o =>
    cases o
    · exact ⟨'\x7b', _, rfl, by decide, by decide, by decide⟩
    · exact ⟨'\x7b', _, rfl, by decide, by decide, by decide⟩

/-- One-step unfolding of the value decoder at positive fuel. -/
theorem parseValue_succ (f : ℕ) (input : List Char) :
    parseValue (f + 1) input =
      match skipWs input with
      | [] => none
      | c :: r =>
        if c = '"' then (parseStringBody r).map (fun p => (Json.str p.1, p.2))
        else if c = '[' then
          match skipWs r with
          | [] => none
          | d :: r2 =>
            if d = ']' then some (Json.arr JsonList.nil, r2)
            else (parseItems f (d :: r2)).map (fun p => (Json.arr p.1, p.2))
        else if c = '\x7b' then
          match skipWs r with
          | [] => none
          | d :: r2 =>
            if d = '\x7d' then some (Json.obj JsonObj.onil, r2)
            else (parseFields f (d :: r2)).map (fun p => (Json.obj p.1, p.2))
        else if c = 't' then
          match r with
          | 'r' :: 'u' :: 'e' :: r2 => some (Json.bool true, r2)
          | _ => none
        else if c = 'f' then
          match r with
          | 'a' :: 'l' :: 's' :: 'e' :: r2 => some (Json.bool false, r2)
          | _ => none
        else if c = 'n' then
          match r with
          | 'u' :: 'l' :: 'l' :: r2 => some (Json.null, r2)
          | _ => none
        else (parseNum (c :: r)).map (fun p => (Json.num p.1, p.2)) := by
  rw [parseValue.eq_def]

/-- One-step unfolding of the item decoder at positive fuel. -/
theorem parseItems_succ (f : ℕ) (input : List Char) :
    parseItems (f + 1) input =
      match parseValue f input with
      | none => none
      | some (v, r) =>
        match skipWs r with
        | ',' :: r2 => (parseItems f r2).map (fun p => (JsonList.cons v p.1, p.2))
        | ']' :: r2 => some (JsonList.cons v JsonList.nil, r2)
        | _ => none := by
  rw [parseItems.eq_def]

/-- One-step unfolding of the field decoder at positive fuel. -/
theorem parseFields_succ (f : ℕ) (input : List Char) :
    parseFields (f + 1) input =
      match skipWs input with
      | [] => none
      | c :: r =>
        if c = '"' then
          match parseStringBody r with
          | none => none
          | some (k, r2) =>
            match skipWs r2 with
            | ':' :: r3 =>
              match parseValue f r3 with
              | none => none
              | some (v, r4) =>
                match skipWs r4 with
                | ',' :: r5 => (parseFields f r5).map (fun p => (JsonObj.ocons k v p.1, p.2))
                | '\x7d' :: r5 => some (JsonObj.ocons k v JsonObj.onil, r5)
                | _ => none
            | _ => none
        else none := by
  rw [parseFields.eq_def]

/-- Round trip for `null`. -/
theorem pval_null : Pval Json.null := by
  intro lvl fuel pre rest hpre hfuel hrest
  cases fuel with
  | zero => simp [jfuelV] at hfuel
  | succ f =>
    rw [show printJson lvl Json.null = ['n', 'u', 'l', 'l'] from rfl]
    simp only [List.cons_append, List.nil_append]
    rw [parseValue_succ, skipWs_append_ws pre _ hpre, skipWs_cons_of_neg _ _ (by decide)]
    simp

/-- Round trip for booleans. -/
theorem pval_bool (b : Bool) : Pval (Json.bool b) := by
  intro lvl fuel pre rest hpre hfuel hrest
  cases fuel with
  | zero => simp [jfuelV] at hfuel
  | succ f =>
    cases b
    · rw [show printJson lvl (Json.bool false) = ['f', 'a', 'l', 's', 'e'] from rfl]
      simp only [List.cons_append, List.nil_append]
      rw [parseValue_succ, skipWs_append_ws pre _ hpre, skipWs_cons_of_neg _ _ (by decide)]
      simp
    · rw [show printJson lvl (Json.bool true) = ['t', 'r', 'u', 'e'] from rfl]
      simp only [List.cons_append, List.nil_append]
      rw [parseValue_succ, skipWs_append_ws pre _ hpre, skipWs_cons_of_neg _ _ (by decide)]
      simp

/-- Round trip for strings. -/
theorem pval_str (s : List Char) : Pval (Json.str s) := by
  intro lvl fuel pre rest hpre hfuel hrest
  cases fuel with
  | zero => simp [jfuelV] at hfuel
  | succ f =>
    rw [show printJson lvl (Json.str s) = '"' :: (escapeStr s ++ ['"']) from rfl]
    rw [show ('"' :: (escapeStr s ++ ['"'])) ++ (rest : List Char)
        = '"' :: (escapeStr s ++ '"' :: rest) from by simp]
    rw [parseValue_succ, skipWs_append_ws pre _ hpre, skipWs_cons_of_neg _ _ (by decide)]
    simp [parseStringBody_escape]

/-- Round trip for numbers. -/
theorem pval_num (z : ℤ) : Pval (Json.num z) := by
  intro lvl fuel pre rest hpre hfuel hrest
  cases fuel with
  | zero => simp [jfuelV] at hfuel
  | succ f =>
    rw [show printJson lvl (Json.num z) = intRepr z from rfl]
    rw [parseValue_succ, skipWs_append_ws pre _ hpre]
    by_cases hz : z < 0
    · rw [show intRepr z = '-' :: natRepr z.natAbs from by simp [intRepr, hz]]
      rw [List.cons_append, skipWs_cons_of_neg _ _ (by decide)]
      simp only [Char.reduceEq, reduceIte, ← List.cons_append,
        show ('-' :: natRepr z.natAbs : List Char) = intRepr z from by simp [intRepr, hz]]
      rw [parseNum_intRepr z rest hrest]
      simp
    · cases hnr : natRepr z.natAbs with
      | nil => exact absurd hnr (natRepr_ne_nil _)
      | cons d ds =>
        have hdig : d.isDigit = true :=
          natRepr_digits _ d (by rw [hnr]; exact List.mem_cons_self _ _)
        obtain ⟨w1, w2, w3, w4, w5, w6, w7, _, _, _, _⟩ := digit_head_facts hdig
        rw [show intRepr z = natRepr z.natAbs from by simp [intRepr, hz], hnr,
          List.cons_append, skipWs_cons_of_neg _ _ w1]
        simp only [w2, w3, w4, w5, w6, w7, reduceIte,
          ← List.cons_append, ← hnr,
          show (natRepr z.natAbs : List Char) = intRepr z from by simp [intRepr, hz]]
        rw [parseNum_intRepr z rest hrest]
        simp

/-- A newline followed by indentation is whitespace. -/
theorem nl_pad_isWsList (lvl : ℕ) : IsWsList ('\n' :: wsPad lvl) := by
  intro c hc
  rcases List.mem_cons.mp hc with rfl | hc
  · decide
  · exact wsPad_isWsList lvl c hc

/-- A printed item list followed by a closing context cannot extend a
number: it starts with a comma or the closing newline. -/
theorem restOk_items (lvl : ℕ) (t : JsonList) (p rest : List Char) (brk : Char) :
    RestOk (printItems lvl t ++ '\n' :: (p ++ brk :: rest)) := by
  cases t with
  | nil =>
    rw [show printItems lvl JsonList.nil = ([] : List Char) from rfl, List.nil_append]
    simp only [RestOk]
    decide
  | cons h2 t2 =>
    rw [show printItems lvl (JsonList.cons h2 t2)
        = ',' :: '\n' :: (wsPad lvl ++ printJson lvl h2 ++ printItems lvl t2) from rfl,
      List.cons_append]
    simp only [RestOk]
    decide

/-- A printed field list followed by a closing context cannot extend a
number. -/
theorem restOk_fields (lvl : ℕ) (t : JsonObj) (p rest : List Char) (brk : Char) :
    RestOk (printFields lvl t ++ '\n' :: (p ++ brk :: rest)) := by
  cases t with
  | onil =>
    rw [show printFields lvl JsonObj.onil = ([] : List Char) from rfl, List.nil_append]
    simp only [RestOk]
    decide
  | ocons k2 v2 t2 =>
    rw [show printFields lvl (JsonObj.ocons k2 v2 t2)
        = ',' :: '\n' :: (wsPad lvl ++ '"' :: (escapeStr k2
          ++ '"' :: ':' :: ' ' :: (printJson lvl v2 ++ printFields lvl t2))) from rfl,
      List.cons_append]
    simp only [RestOk]
    decide

/-- `skipWs` wrappers for the fixed characters of the printed form. -/
theorem skipWs_nl (x : List Char) : skipWs ('\n' :: x) = skipWs x :=
  skipWs_cons_of_pos _ _ (by decide)

/-- `skipWs` stops at a comma. -/
theorem skipWs_comma (x : List Char) : skipWs (',' :: x) = ',' :: x :=
  skipWs_cons_of_neg _ _ (by decide)

/-- `skipWs` stops at a colon. -/
theorem skipWs_colon (x : List Char) : skipWs (':' :: x) = ':' :: x :=
  skipWs_cons_of_neg _ _ (by decide)

/-- `skipWs` stops at a closing square bracket. -/
theorem skipWs_rbrack (x : List Char) : skipWs (']' :: x) = ']' :: x :=
  skipWs_cons_of_neg _ _ (by decide)

/-- `skipWs` stops at a closing brace. -/
theorem skipWs_rbrace (x : List Char) : skipWs ('\x7d' :: x) = '\x7d' :: x :=
  skipWs_cons_of_neg _ _ (by decide)

/-- `skipWs` stops at a quote. -/
theorem skipWs_quote (x : List Char) : skipWs ('"' :: x) = '"' :: x :=
  skipWs_cons_of_neg _ _ (by decide)

/-- Hypothesis-first variant of `skipWs_cons_of_neg`, usable as a rewrite
rule once the head is known. -/
theorem skipWs_cons_neg' {c : Char} (h : isWsChar c = false) :
    ∀ x, skipWs (c :: x) = c :: x :=
  fun x => skipWs_cons_of_neg c x h

/-- Hypothesis-first variant of `skipWs_append_ws`. -/
theorem skipWs_append_ws' {p : List Char} (h : IsWsList p) :
    ∀ x, skipWs (p ++ x) = skipWs x :=
  fun x => skipWs_append_ws p x h

/-- `skipWs` drops the indentation padding. -/
theorem skipWs_wsPad (lvl : ℕ) (x : List Char) : skipWs (wsPad lvl ++ x) = skipWs x :=
  skipWs_append_ws _ _ (wsPad_isWsList lvl)

/-- Round trip for the items of a nonempty array. -/
theorem pitems_cons (h : Json) (t : JsonList) (ih1 : Pval h) (ih2 : Pitems t) :
    Pitems (JsonList.cons h t) := by
  intro lvl fuel pre closer rest hpre hfuel hcl hne
  obtain ⟨p, hpw, rfl⟩ := hcl
  cases fuel with
  | zero => simp [jfuelL] at hfuel
  | succ f =>
    have hfv : jfuelV h ≤ f := by
      simp [jfuelL] at hfuel
      omega
    rw [parseItems_succ]
    rw [show (pre ++ (printItemsFull lvl (JsonList.cons h t) ++ ('\n' :: (p ++ ']' :: rest))))
        = pre ++ (printJson lvl h ++ (printItems lvl t ++ ('\n' :: (p ++ ']' :: rest))))
        from by simp [printItemsFull]]
    have hv := ih1 lvl f pre (printItems lvl t ++ '\n' :: (p ++ ']' :: rest)) hpre hfv
      (restOk_items lvl t p rest ']')
    rw [hv]
    cases t with
    | nil =>
      rw [show printItems lvl JsonList.nil = ([] : List Char) from rfl]
      simp [skipWs_nl, skipWs_append_ws' hpw, skipWs_rbrack]
    | cons h2 t2 =>
      have hft : jfuelL (JsonList.cons h2 t2) ≤ f := by
        simp [jfuelL] at hfuel ⊢
        omega
      have hit := ih2 lvl f ('\n' :: wsPad lvl) ('\n' :: (p ++ ']' :: rest)) rest
        (nl_pad_isWsList lvl) hft ⟨p, hpw, rfl⟩ (by simp)
      simp only [printItemsFull, List.cons_append, List.append_assoc, List.nil_append] at hit
      rw [show printItems lvl (JsonList.cons h2 t2)
          = ',' :: '\n' :: (wsPad lvl ++ printJson lvl h2 ++ printItems lvl t2) from rfl]
      simp [skipWs_comma, hit, List.append_assoc]

/-- Round trip for the fields of a nonempty object. -/
theorem pfields_ocons (k : List Char) (v : Json) (t : JsonObj) (ih1 : Pval v)
    (ih2 : Pfields t) : Pfields (JsonObj.ocons k v t) := by
  intro lvl fuel pre closer rest hpre hfuel hcl hne
  obtain ⟨p, hpw, rfl⟩ := hcl
  cases fuel with
  | zero => simp [jfuelO] at hfuel
  | succ f =>
    have hfv : jfuelV v ≤ f := by
      simp [jfuelO] at hfuel
      omega
    rw [parseFields_succ]
    rw [show (pre ++ (printFieldsFull lvl (JsonObj.ocons k v t) ++ ('\n' :: (p ++ '\x7d' :: rest))))
        = pre ++ ('"' :: (escapeStr k ++ '"' :: ':' :: ' '
            :: (printJson lvl v ++ (printFields lvl t ++ ('\n' :: (p ++ '\x7d' :: rest))))))
        from by simp [printFieldsFull]]
    rw [skipWs_append_ws pre _ hpre, skipWs_quote]
    have hv := ih1 lvl f [' '] (printFields lvl t ++ '\n' :: (p ++ '\x7d' :: rest))
      (by intro c hc; simp at hc; subst hc; decide) hfv
      (restOk_fields lvl t p rest '\x7d')
    simp only [List.cons_append, List.nil_append] at hv
    cases t with
    | onil =>
      rw [show printFields lvl JsonObj.onil = ([] : List Char) from rfl] at hv ⊢
      simp only [List.nil_append] at hv
      simp [parseStringBody_escape, skipWs_colon, skipWs_nl, skipWs_append_ws' hpw,
        skipWs_rbrace, hv]
    | ocons k2 v2 t2 =>
      have hft : jfuelO (JsonObj.ocons k2 v2 t2) ≤ f := by
        simp [jfuelO] at hfuel ⊢
        omega
      have hit := ih2 lvl f ('\n' :: wsPad lvl) ('\n' :: (p ++ '\x7d' :: rest)) rest
        (nl_pad_isWsList lvl) hft ⟨p, hpw, rfl⟩ (by simp)
      simp only [printFieldsFull, List.cons_append, List.append_assoc, List.nil_append] at hit
      rw [show printFields lvl (JsonObj.ocons k2 v2 t2)
          = ',' :: '\n' :: (wsPad lvl ++ '"' :: (escapeStr k2
            ++ '"' :: ':' :: ' ' :: (printJson lvl v2 ++ printFields lvl t2))) from rfl] at hv ⊢
      simp only [List.cons_append, List.append_assoc] at hv
      simp [parseStringBody_escape, skipWs_colon, skipWs_comma, hv, hit, List.append_assoc]

/-- The item round trip holds vacuously for the empty list. -/
theorem pitems_nil : Pitems JsonList.nil := by
  intro lvl fuel pre closer rest hpre hfuel hcl hne
  exact absurd rfl hne

/-- The field round trip holds vacuously for the empty object. -/
theorem pfields_onil : Pfields JsonObj.onil := by
  intro lvl fuel pre closer rest hpre hfuel hcl hne
  exact absurd rfl hne

/-- Round trip for arrays. -/
theorem pval_arr (l : JsonList) (ih : Pitems l) : Pval (Json.arr l) := by
  intro lvl fuel pre rest hpre hfuel hrest
  cases fuel with
  | zero => simp [jfuelV] at hfuel
  | succ f =>
    cases l with
    | nil =>
      rw [show printJson lvl (Json.arr JsonList.nil) = ['[', ']'] from rfl]
      simp only [List.cons_append, List.nil_append]
      rw [parseValue_succ, skipWs_append_ws pre _ hpre, skipWs_cons_of_neg _ _ (by decide)]
      simp [skipWs_cons_of_neg ']' rest (by decide)]
    | cons h t =>
      obtain ⟨d, ds, hd, hdw, hdrb, _⟩ := printJson_head (lvl + 1) h
      have hfl : jfuelL (JsonList.cons h t) ≤ f := by
        simp [jfuelV] at hfuel
        omega
      have hih := ih (lvl + 1) f [] ('\n' :: (wsPad lvl ++ ']' :: rest)) rest nil_isWsList hfl
        ⟨wsPad lvl, wsPad_isWsList lvl, rfl⟩ (by simp)
      simp only [printItemsFull, List.nil_append, List.append_assoc, hd,
        List.cons_append] at hih
      rw [show printJson lvl (Json.arr (JsonList.cons h t))
          = '[' :: '\n' :: (wsPad (lvl + 1) ++ printJson (lvl + 1) h
            ++ printItems (lvl + 1) t ++ '\n' :: (wsPad lvl ++ [']'])) from rfl]
      rw [show ((('[' :: '\n' :: (wsPad (lvl + 1) ++ printJson (lvl + 1) h
            ++ printItems (lvl + 1) t ++ '\n' :: (wsPad lvl ++ [']']))) : List Char) ++ rest)
          = '[' :: '\n' :: (wsPad (lvl + 1) ++ (printJson (lvl + 1) h
            ++ (printItems (lvl + 1) t ++ ('\n' :: (wsPad lvl ++ (']' :: rest))))))
          from by simp]
      rw [parseValue_succ, skipWs_append_ws pre _ hpre, skipWs_cons_of_neg _ _ (by decide)]
      simp [skipWs_nl, skipWs_wsPad, hd, skipWs_cons_neg' hdw, hdrb, hih, List.append_assoc]

/-- Round trip for objects. -/
theorem pval_obj (o : JsonObj) (ih : Pfields o) : Pval (Json.obj o) := by
  intro lvl fuel pre rest hpre hfuel hrest
  cases fuel with
  | zero => simp [jfuelV] at hfuel
  | succ f =>
    cases o with
    | onil =>
      rw [show printJson lvl (Json.obj JsonObj.onil) = ['\x7b', '\x7d'] from rfl]
      simp only [List.cons_append, List.nil_append]
      rw [parseValue_succ, skipWs_append_ws pre _ hpre, skipWs_cons_of_neg _ _ (by decide)]
      simp [skipWs_cons_of_neg '\x7d' rest (by decide)]
    | ocons k v t =>
      have hfo : jfuelO (JsonObj.ocons k v t) ≤ f := by
        simp [jfuelV] at hfuel
        omega
      have hih := ih (lvl + 1) f [] ('\n' :: (wsPad lvl ++ '\x7d' :: rest)) rest nil_isWsList hfo
        ⟨wsPad lvl, wsPad_isWsList lvl, rfl⟩ (by simp)
      simp only [printFieldsFull, List.nil_append, List.append_assoc,
        List.cons_append] at hih
      rw [show printJson lvl (Json.obj (JsonObj.ocons k v t))
          = '\x7b' :: '\n' :: (wsPad (lvl + 1) ++ '"' :: (escapeStr k
            ++ '"' :: ':' :: ' ' :: (printJson (lvl + 1) v ++ printFields (lvl + 1) t
              ++ '\n' :: (wsPad lvl ++ ['\x7d'])))) from rfl]
      rw [show ((('\x7b' :: '\n' :: (wsPad (lvl + 1) ++ '"' :: (escapeStr k
            ++ '"' :: ':' :: ' ' :: (printJson (lvl + 1) v ++ printFields (lvl + 1) t
              ++ '\n' :: (wsPad lvl ++ ['\x7d']))))) : List Char) ++ rest)
          = '\x7b' :: '\n' :: (wsPad (lvl + 1) ++ ('"' :: (escapeStr k
            ++ '"' :: ':' :: ' ' :: (printJson (lvl + 1) v ++ (printFields (lvl + 1) t
              ++ ('\n' :: (wsPad lvl ++ ('\x7d' :: rest))))))))
          from by simp]
      rw [parseValue_succ, skipWs_append_ws pre _ hpre, skipWs_cons_of_neg _ _ (by decide)]
      simp [skipWs_nl, skipWs_wsPad, skipWs_quote, hih, List.append_assoc]

/-- Round trip for every document (mutual induction over the three sorts). -/
theorem pval_all (j : Json) : Pval j :=
  @Json.rec Pval Pitems Pfields pval_null pval_bool pval_num pval_str pval_arr pval_obj
    pitems_nil pitems_cons pfields_onil pfields_ocons j

/-- A printed integer is never empty. -/
theorem intRepr_ne_nil (z : ℤ) : intRepr z ≠ [] := by
  unfold intRepr
  split
  · simp
  · exact natRepr_ne_nil _

/-- The decoder's fuel budget never exceeds the printed length. -/
theorem jfuel_le_print (j : Json) : ∀ lvl, jfuelV j ≤ (printJson lvl j).length := by
  refine @Json.rec (fun j => ∀ lvl, jfuelV j ≤ (printJson lvl j).length)
    (fun l => ∀ lvl, jfuelL l ≤ (printItems lvl l).length + 1)
    (fun o => ∀ lvl, jfuelO o ≤ (printFields lvl o).length + 1)
    ?_ ?_ ?_ ?_ ?_ ?_ ?_ ?_ ?_ ?_ j
  · intro lvl
    rw [show printJson lvl Json.null = ['n', 'u', 'l', 'l'] from rfl]
    simp [jfuelV]
  · intro b lvl
    cases b
    · rw [show printJson lvl (Json.bool false) = ['f', 'a', 'l', 's', 'e'] from rfl]
      simp [jfuelV]
    · rw [show printJson lvl (Json.bool true) = ['t', 'r', 'u', 'e'] from rfl]
      simp [jfuelV]
  · intro z lvl
    rw [show printJson lvl (Json.num z) = intRepr z from rfl]
    have h := List.length_pos.mpr (intRepr_ne_nil z)
    simp only [jfuelV]
    omega
  · intro s lvl
    rw [show printJson lvl (Json.str s) = '"' :: (escapeStr s ++ ['"']) from rfl]
    simp [jfuelV]
  · intro l ih lvl
    cases l with
    | nil =>
      rw [show printJson lvl (Json.arr JsonList.nil) = ['[', ']'] from rfl]
      simp [jfuelV, jfuelL]
    | cons h t =>
      have ih1 := ih (lvl + 1)
      rw [show printItems (lvl + 1) (JsonList.cons h t)
          = ',' :: '\n' :: (wsPad (lvl + 1) ++ printJson (lvl + 1) h
            ++ printItems (lvl + 1) t) from rfl] at ih1
      rw [show printJson lvl (Json.arr (JsonList.cons h t))
          = '[' :: '\n' :: (wsPad (lvl + 1) ++ printJson (lvl + 1) h
            ++ printItems (lvl + 1) t ++ '\n' :: (wsPad lvl ++ [']'])) from rfl]
      simp only [jfuelV, List.length_cons, List.length_append, wsPad,
        List.length_replicate] at ih1 ⊢
      omega
  · intro o ih lvl
    cases o with
    | onil =>
      rw [show printJson lvl (Json.obj JsonObj.onil) = ['\x7b', '\x7d'] from rfl]
      simp [jfuelV, jfuelO]
    | ocons k v t =>
      have ih1 := ih (lvl + 1)
      rw [show printFields (lvl + 1) (JsonObj.ocons k v t)
          = ',' :: '\n' :: (wsPad (lvl + 1) ++ '"' :: (escapeStr k
            ++ '"' :: ':' :: ' ' :: (printJson (lvl + 1) v
              ++ printFields (lvl + 1) t))) from rfl] at ih1
      rw [show printJson lvl (Json.obj (JsonObj.ocons k v t))
          = '\x7b' :: '\n' :: (wsPad (lvl + 1) ++ '"' :: (escapeStr k
            ++ '"' :: ':' :: ' ' :: (printJson (lvl + 1) v ++ printFields (lvl + 1) t
              ++ '\n' :: (wsPad lvl ++ ['\x7d'])))) from rfl]
      simp only [jfuelV, List.length_cons, List.length_append, wsPad,
        List.length_replicate] at ih1 ⊢
      omega
  · intro lvl
    rw [show printItems lvl JsonList.nil = ([] : List Char) from rfl]
    simp [jfuelL]
  · intro h t ih1 ih2 lvl
    have i1 := ih1 lvl
    have i2 := ih2 lvl
    rw [show printItems lvl (JsonList.cons h t)
        = ',' :: '\n' :: (wsPad lvl ++ printJson lvl h ++ printItems lvl t) from rfl]
    simp only [jfuelL, List.length_cons, List.length_append, wsPad, List.length_replicate]
    omega
  · intro lvl
    rw [show printFields lvl JsonObj.onil = ([] : List Char) from rfl]
    simp [jfuelO]
  · intro k v t ih1 ih2 lvl
    have i1 := ih1 lvl
    have i2 := ih2 lvl
    rw [show printFields lvl (JsonObj.ocons k v t)
        = ',' :: '\n' :: (wsPad lvl ++ '"' :: (escapeStr k
          ++ '"' :: ':' :: ' ' :: (printJson lvl v ++ printFields lvl t))) from rfl]
    simp only [jfuelO, List.length_cons, List.length_append, wsPad, List.length_replicate]
    omega

/-- C8: persisting any document with `save_state` and reloading it with
`load_state` yields the identical document — all field values and the
insertion order of arrays and object keys (in particular of `reminders`)
are preserved. -/
theorem C8_save_load_roundtrip (j : Json) : loads (dumps j) = some j := by
  have hfuel : jfuelV j ≤ (printJson 0 j).length + 1 :=
    le_trans (jfuel_le_print j 0) (by omega)
  have hp := pval_all j 0 ((printJson 0 j).length + 1) [] [] nil_isWsList hfuel trivial
  simp only [List.nil_append, List.append_nil] at hp
  unfold loads dumps
  rw [hp]
  simp [skipWs]

/-- Witness for C10 at a concrete request: `09:00` asked at `14:30:15`. -/
theorem C10_witness :
    (resolveTarget ⟨0, 14, 30, 15, 500⟩ 9 0).second = 0 ∧
    (resolveTarget ⟨0, 14, 30, 15, 500⟩ 9 0).microsecond = 0 ∧
    (⟨0, 14, 30, 15, 500⟩ : PyDateTime).toMicro <
      (resolveTarget ⟨0, 14, 30, 15, 500⟩ 9 0).toMicro ∧
    (resolveTarget ⟨0, 14, 30, 15, 500⟩ 9 0).toMicro ≤
      (⟨0, 14, 30, 15, 500⟩ : PyDateTime).toMicro + 86400000000 :=
  C10_scheduled_time_bounds ⟨0, 14, 30, 15, 500⟩ (by decide) 9 0 (by decide) (by decide)

end TelegramCat
